import Mathlib

/-!
Verification development for the `SignatureOptimizerMetricBoosted` teleprompter
(`dspy/teleprompt/signature_opt_metric_boosted.py`).

Modelling conventions:
* A dataset row is identified by its integer index label into the devset
  (`devset_df` has the default RangeIndex, so row identity = label).
  A pandas DataFrame derived from the devset is therefore a `List Nat`
  of labels, in row order, duplicates allowed.
* The tiktoken encoder is external; the per-row token cost
  `len(encoder.encode(' '.join(row.astype(str))))` is abstracted as a
  function `cost : α → Nat` passed explicitly.
* `safely_markdownify` is external pandas rendering; it is abstracted as a
  function `md : List Nat → String` over the kept rows.  Its internal
  try/except fallback is not modelled.
* Python floats used as scores are modelled as `Int` (only order matters).
* Exceptions are modelled with `Except String`; the observable
  `print("Warning: ...")` calls are modelled as a returned `Bool` flag.
-/

/-- Model of `safe_strip` (signature_opt_metric_boosted.py line 154):
`re.findall(r'\d+', str(text))` followed by `int` on each match, i.e. every
maximal run of (ASCII) digit characters becomes one natural number, in
left-to-right order. `acc` carries the value of the digit run in progress. -/
def safeStripGo : List Char → Option Nat → List Nat
  | [], none => []
  | [], some v => [v]
  | c :: cs, none =>
    if c.isDigit then safeStripGo cs (some (c.toNat - 48)) else safeStripGo cs none
  | c :: cs, some v =>
    if c.isDigit then safeStripGo cs (some (v * 10 + (c.toNat - 48)))
    else v :: safeStripGo cs none

/-- Model of `safe_strip(text)`: extract all digit runs of the string as
natural numbers. -/
def safe_strip (s : String) : List Nat :=
  safeStripGo s.data none

/-- Result of rendering a table of rows under a token budget: either the
"None Shown - {n} present, too long to show" sentinel (carrying the row
count) or the markdownified kept prefix of rows. -/
inductive Rendered (α : Type) where
  | noneShown (count : Nat)
  | shown (rows : List α)
deriving DecidableEq

/-- The `while nrows_to_keep < len(df)` loop of `budgeted_df_stringify`
(lines 228-236): include each row in order while its token cost fits the
remaining budget, deducting the cost; stop at the first row that does not
fit. Returns the number of rows kept. -/
def budgetedKeep (cost : α → Nat) : Nat → List α → Nat
  | _, [] => 0
  | budget, r :: rs =>
    if budget < cost r then 0
    else budgetedKeep cost (budget - cost r) rs + 1

/-- Model of `SignatureOptimizerMetricBoosted.budgeted_df_stringify(df, budget)`
(lines 228-239): greedy inclusion, then the none-shown sentinel when zero
rows fit, otherwise `safely_markdownify(df[0:nrows_to_keep])`. -/
def budgeted_df_stringify (cost : α → Nat) (df : List α) (budget : Nat) : Rendered α :=
  let k := budgetedKeep cost budget df
  if k = 0 then .noneShown df.length else .shown (df.take k)

/-- Whether a rendering result is the "None Shown" sentinel; models the
substring test `"None Shown" in failure_stringified` at line 254. -/
def isNoneShown : Rendered α → Bool
  | .noneShown _ => true
  | .shown _ => false

/-- Model of `MetricObservation` (lines 173-182): a summary plus the
`failure_exemplars` DataFrame, represented as the list of devset row labels
of its rows (`failure_exemplars.index`, in row order). The per-instance
constants `example_token_budget = 300` and the tiktoken encoder are not
stored: the budget is the fixed literal 300 and the encoder is the abstract
`cost` argument of the rendering functions. -/
structure MetricObservation where
  summary : String
  exemplarIdx : List Nat
deriving DecidableEq

/-- The `while True` loop of `MetricObservation.__str__` (lines 185-194).
`d` is `len(self.failure_exemplars)`, `n` is `nrows_to_keep`, and the list
argument is the suffix of rows starting at position `n`. A row is included
when its cost fits the remaining budget, but the loop additionally breaks
as soon as the incremented count reaches `d - 1` (so the cost of the row
just included is not deducted on that final pass). -/
def strKeepGo (cost : α → Nat) (d : Nat) : Nat → Nat → List α → Nat
  | _, n, [] => n
  | budget, n, r :: rs =>
    if budget < cost r then n
    else if d - 1 ≤ n + 1 then n + 1
    else strKeepGo cost d (budget - cost r) (n + 1) rs

/-- Number of exemplar rows `MetricObservation.__str__` keeps for a given
budget, starting the loop at `nrows_to_keep = 0`. -/
def strKeepCount (cost : α → Nat) (budget : Nat) (rows : List α) : Nat :=
  strKeepGo cost rows.length budget 0 rows

/-- Model of `MetricObservation.__str__` (lines 184-197). The first loop
iteration evaluates `self.failure_exemplars.iloc[0]` before any emptiness
check, so an observation with zero exemplar rows raises `IndexError`:
modelled as `none`. For a nonempty table the loop runs as `strKeepCount`
with the fixed budget 300, and the result is the sentinel string when zero
rows were kept, otherwise the markdownified kept prefix. -/
def metricObservationStr (md : List Nat → String) (cost : Nat → Nat)
    (obs : MetricObservation) : Option String :=
  match obs.exemplarIdx with
  | [] => none
  | r :: rs =>
    let k := strKeepCount cost 300 (r :: rs)
    if k = 0 then
      some ("Summary: " ++ obs.summary ++ "\nFailure Exemplars: None Shown - "
        ++ toString (r :: rs).length ++ " present, too long to show")
    else
      some ("Summary: " ++ obs.summary ++ "\nFailure Exemplars: "
        ++ md ((r :: rs).take k))

/-- Model of `MetricObservationHistory.__init__` (lines 199-213): the three
observation buckets plus the fixed configuration. The devset itself is
summarized by its length (`devsetLen`), which is all the core consults
(`len(self.metric_observation_history.devset)` bound checks); row content
only matters through the abstract cost/markdown functions. -/
structure History where
  current : List MetricObservation
  used : List MetricObservation
  unused : List MetricObservation
  devsetLen : Nat
  maxObs : Nat
  tokensIncorrect : Nat
  tokensCorrect : Nat
deriving DecidableEq

/-- The completion-processing loop of `propose_metric_observations`
(lines 256-264), over the list of completions, each a pair of the
`proposed_metric_observation_summary` field and the raw stringified-index
field. `n` is `len(devset)`. For each completion: extract digit runs; raise
`ValueError("Exemplar parsing failed")` when none; drop out-of-range
indices (warning when any were dropped, modelled by the returned flag);
build a `MetricObservation` whose exemplar rows are the devset rows at the
surviving labels. -/
def processComps (n : Nat) : List (String × String) →
    Except String (List MetricObservation × Bool)
  | [] => .ok ([], false)
  | (summary, raw) :: rest =>
    let cites := safe_strip raw
    if cites.isEmpty then .error "Exemplar parsing failed"
    else
      let ok := cites.filter (fun j => j < n)
      match processComps n rest with
      | .error e => .error e
      | .ok (obs, w) =>
        .ok (⟨summary, ok⟩ :: obs, (decide (ok.length < cites.length)) || w)

/-- Model of `SignatureOptimizerMetricBoosted.propose_metric_observations`
(lines 241-267). The LLM call is external: its three completions arrive as
the `comps` argument. `failed` is the failing-rows DataFrame (devset labels
of `current_instructions_failed_on`), rendered under the
`tokens_incorrect_example` budget; when that rendering is the none-shown
sentinel, every completion's index field is replaced by the empty Python
list, whose `str()` is `"[]"` (line 254-255). On success the previous
`current` bucket is appended to `used` and the new observations become
`current`; on a raised error no bucket changes (the mutations at lines
265-266 sit after the loop). The returned flag records whether the
out-of-range warning was printed. -/
def propose_metric_observations (cost : Nat → Nat) (h : History)
    (failed : List Nat) (comps : List (String × String)) :
    Except String (History × Bool) :=
  let failureRendered := budgeted_df_stringify cost failed h.tokensIncorrect
  let comps' := if isNoneShown failureRendered then
      comps.map (fun c => (c.1, "[]")) else comps
  match processComps h.devsetLen comps' with
  | .error e => .error e
  | .ok (newObs, w) =>
    .ok ({ h with used := h.used ++ h.current, current := newObs }, w)

/-- One iteration of the consolidation loop of `update_metric_observations`
(lines 277-284), folded over the completions. The accumulator is the
current `used` list (which grows inside the loop: the bound check
`index < len(...used)` at line 279 and the lookups `used[i]` at line 282
both see the list as already extended by earlier iterations) together with
the warning flag. The new observation's exemplar labels are the union
(`list(set(...))`, modelled as first-occurrence `dedup`) of the in-range
cited parents' exemplar labels. -/
def consolidateStep (acc : List MetricObservation × Bool)
    (comp : String × String) : List MetricObservation × Bool :=
  let used := acc.1
  let raw := safe_strip comp.2
  let ok := raw.filter (fun j => j < used.length)
  let parents := ok.filterMap (fun j => used.get? j)
  let idxs := (parents.flatMap (fun o => o.exemplarIdx)).dedup
  (used ++ [⟨comp.1, idxs⟩], acc.2 || decide (ok.length < raw.length))

/-- Model of `SignatureOptimizerMetricBoosted.update_metric_observations`
(lines 268-284). When `len(used) > max_metric_observations` the LLM is
asked for `max_metric_observations // 2` consolidation completions (they
arrive as the `comps` argument); `unused` is extended with the whole
pre-consolidation `used` list (line 276), which is itself never cleared,
and one new observation per completion is appended to `used`. Otherwise
nothing happens. The flag records whether the invalid-index warning was
printed. -/
def update_metric_observations (h : History) (comps : List (String × String)) :
    History × Bool :=
  if h.maxObs < h.used.length then
    let unused' := h.unused ++ h.used
    let r := comps.foldl consolidateStep (h.used, false)
    ({ h with used := r.1, unused := unused' }, r.2)
  else (h, false)

/-- Model of an entry of `evaluated_candidates[id(p_old)]` (lines 410-416):
the best-known evaluation record for one `(instruction, prefix)` candidate
identity of a predictor. The program snapshot is opaque and carried as an
identifier. The score (a Python float percentage) is modelled as `Int`. -/
structure EvalRecord where
  score : Int
  instruction : String
  pfx : String
  depth : Nat
  prog : Nat
deriving DecidableEq

/-- Lookup in the per-predictor dict, modelled as an association list in
insertion order (Python dicts preserve insertion order). -/
def lookupCandidate (store : List ((String × String) × EvalRecord))
    (k : String × String) : Option EvalRecord :=
  match store with
  | [] => none
  | e :: es => if e.1 = k then some e.2 else lookupCandidate es k

/-- Model of the record step of `compile` (lines 403-416): insert a new
`(instruction, prefix)` key at the end; for an existing key, overwrite only
when the new score is strictly greater (`replace_entry = False` when the
stored score is `>=` the new one). A Python dict update of an existing key
keeps its insertion position, hence the in-place `map`. -/
def recordCandidate (store : List ((String × String) × EvalRecord))
    (k : String × String) (r : EvalRecord) :
    List ((String × String) × EvalRecord) :=
  match lookupCandidate store k with
  | none => store ++ [(k, r)]
  | some r0 =>
    if r.score ≤ r0.score then store
    else store.map (fun e => if e.1 = k then (k, r) else e)

/-- The comparison fold of CPython `max(values, key=score)`: scan the
values in insertion order, replacing the running best only on a strictly
greater score, so the first maximum encountered wins. -/
def bestFold (b : EvalRecord) (es : List ((String × String) × EvalRecord)) :
    EvalRecord :=
  es.foldl (fun m e => if m.score < e.2.score then e.2 else m) b

/-- Model of `max(evaluated_candidates[id(p_old)].values(), key=...)`
(line 428): `none` on an empty store, otherwise the first record attaining
the maximum score. -/
def bestCandidate (store : List ((String × String) × EvalRecord)) :
    Option EvalRecord :=
  match store with
  | [] => none
  | e :: es => some (bestFold e.2 es)

/-- Model of `extended_signature.fields[-1]`: a namedtuple whose `name`
component is the output-field prefix; everything else about the field
(description etc., untouched by `_replace(name=...)`) is collapsed into
`meta`. Line 291 compares whole fields, not just names. -/
structure FieldSlot where
  name : String
  meta : String
deriving DecidableEq

/-- Model of one predictor's extended signature as read by
`_check_candidates_equal`: the instruction text and the last field. -/
structure PredSig where
  instructions : String
  lastField : FieldSlot
deriving DecidableEq

/-- Model of one element of the final `candidates` list of `compile`
(lines 490-505): an evaluation record whose program snapshot is summarized
by the list of its predictors' signatures, in program order. -/
structure CandRecord where
  score : Int
  preds : List PredSig
deriving DecidableEq

/-- Equality test for one zipped predictor pair inside
`_check_candidates_equal` (lines 289-292): instruction text equal and the
whole last field equal. -/
def predPairEq (p q : PredSig) : Bool :=
  decide (p.instructions = q.instructions) && decide (p.lastField = q.lastField)

/-- Model of `SignatureOptimizerMetricBoosted._check_candidates_equal`
(lines 287-293): zip the two programs' predictors and require every pair to
agree on instructions and on the last field (`zip` stops at the shorter
list, as in Python). -/
def checkCandidatesEqual (c1 c2 : CandRecord) : Bool :=
  (c1.preds.zip c2.preds).all (fun pq => predPairEq pq.1 pq.2)

/-- The loop of `SignatureOptimizerMetricBoosted._drop_duplicates`
(lines 295-313), with `lastBatch`/`lastScore` as explicit arguments. A
candidate whose score equals `lastScore` is dropped iff it equals some
member of `lastBatch`, and otherwise joins the batch; a candidate with a
different score starts a fresh batch. -/
def dropDupGo (lastBatch : List CandRecord) (lastScore : Int) :
    List CandRecord → List CandRecord
  | [] => []
  | c :: cs =>
    if c.score = lastScore then
      if lastBatch.any (fun c2 => checkCandidatesEqual c c2) then
        dropDupGo lastBatch lastScore cs
      else c :: dropDupGo (lastBatch ++ [c]) lastScore cs
    else c :: dropDupGo [c] c.score cs

/-- Model of `_drop_duplicates(candidates)`: the loop started with the
empty batch and `last_batch_score = -1` (line 298). -/
def dropDuplicates (cands : List CandRecord) : List CandRecord :=
  dropDupGo [] (-1) cands

/-- Model of the depth-0 candidate seeding of `compile` (lines 340-346):
the parallel completion lists returned by the `BasicGenerateInstruction`
request for `breadth - 1` completions, with the predictor's original
instruction and prefix appended to each list. -/
def seedCandidates (genInstr genPfx : List String)
    (basicInstruction basicPfx : String) : List String × List String :=
  (genInstr ++ [basicInstruction], genPfx ++ [basicPfx])

/-- Constant per-row token cost, a concrete instance of the abstract
tiktoken cost used by witnesses and counterexamples. -/
def cost1 : Nat → Nat := fun _ => 1

/-- Concrete markdown renderer used by witnesses. -/
def mdLen : List Nat → String := fun l => toString l.length

/-- A history holding sixteen used observations (one more than
`max_metric_observations = 15`), so consolidation triggers. -/
def used16 : List MetricObservation := (List.range 16).map (fun i => ⟨"t", [i]⟩)

/-- History state just before a consolidation call: sixteen used
observations, empty current and unused buckets, a twenty-row devset. -/
def h16 : History := ⟨[], used16, [], 20, 15, 2000, 600⟩

/-- Small empty-bucket history over a three-row devset. -/
def h3 : History := ⟨[], [], [], 3, 15, 2000, 600⟩

/-- Specification of the completion-processing loop: on success, one
observation per completion, each carrying its completion's summary and the
in-bounds filtered citations, hence only devset-bounded labels; the warning
flag is set exactly when some completion cited an out-of-range index. -/
theorem processComps_spec (n : Nat) :
    ∀ (comps : List (String × String)) (obs : List MetricObservation) (w : Bool),
      processComps n comps = .ok (obs, w) →
      obs.length = comps.length ∧
      (∀ pr ∈ comps.zip obs, pr.2.summary = pr.1.1 ∧
        pr.2.exemplarIdx = (safe_strip pr.1.2).filter (fun j => j < n)) ∧
      (∀ o ∈ obs, ∀ j ∈ o.exemplarIdx, j < n) ∧
      (w = true ↔ ∃ c ∈ comps, ∃ j ∈ safe_strip c.2, n ≤ j) := by
  intro comps
  induction comps with
  | nil =>
    intro obs w h
    simp only [processComps, Except.ok.injEq, Prod.mk.injEq] at h
    obtain ⟨h1, h2⟩ := h
    subst h1; subst h2
    simp
  | cons head rest ih =>
    obtain ⟨s, raw⟩ := head
    intro obs w h
    simp only [processComps] at h
    by_cases hc : (safe_strip raw).isEmpty
    · simp [hc] at h
    · simp only [hc, Bool.false_eq_true, if_false, ite_false] at h
      cases hrec : processComps n rest with
      | error e => rw [hrec] at h; simp at h
      | ok pr =>
        obtain ⟨obs', w'⟩ := pr
        rw [hrec] at h
        simp only [Except.ok.injEq, Prod.mk.injEq] at h
        obtain ⟨hobs, hw⟩ := h
        subst hobs; subst hw
        obtain ⟨hlen, hzip, hbound, hwiff⟩ := ih obs' w' hrec
        refine ⟨by simp [hlen], ?_, ?_, ?_⟩
        · intro pr hpr
          simp only [List.zip_cons_cons, List.mem_cons] at hpr
          rcases hpr with hpr | hpr
          · subst hpr; exact ⟨rfl, rfl⟩
          · exact hzip pr hpr
        · intro o ho
          simp only [List.mem_cons] at ho
          rcases ho with ho | ho
          · subst ho
            intro j hj
            simp only [List.mem_filter, decide_eq_true_eq] at hj
            exact hj.2
          · exact hbound o ho
        · simp only [Bool.or_eq_true, decide_eq_true_eq, hwiff,
            List.length_filter_lt_length_iff_exists, List.mem_cons]
          constructor
          · rintro (⟨j, hj, hjn⟩ | ⟨c, hc2, j, hj, hjn⟩)
            · exact ⟨(s, raw), Or.inl rfl, j, hj, by omega⟩
            · exact ⟨c, Or.inr hc2, j, hj, hjn⟩
          · rintro ⟨c, hc2 | hc2, j, hj, hjn⟩
            · subst hc2; exact Or.inl ⟨j, hj, by simpa using hjn⟩
            · exact Or.inr ⟨c, hc2, j, hj, hjn⟩

/-- Claim C1: the claim says that after consolidation runs (when
`len(used) > max_observations`), no pre-consolidation member of `used`
remains in `used` and `used` holds at most `max_observations // 2` fresh
observations. The code extends `unused` with `used` at line 276 but never
clears `used`, so every pre-consolidation member stays: with sixteen used
observations (threshold 15) and one consolidation completion citing
parents 0 and 1, `used` afterwards holds all sixteen old members plus the
new one (seventeen total, not at most seven), while the new observation's
exemplar labels are indeed the union of its parents' labels. -/
theorem C1_consolidation_keeps_used :
    15 < h16.used.length ∧
    (update_metric_observations h16 [("c", "[0, 1]")]).1.used =
      used16 ++ [⟨"c", [0, 1]⟩] ∧
    (⟨"t", [0]⟩ : MetricObservation) ∈
      (update_metric_observations h16 [("c", "[0, 1]")]).1.used ∧
    (update_metric_observations h16 [("c", "[0, 1]")]).1.unused = used16 := by
  refine ⟨by decide, by decide, by decide, by decide⟩

/-- Claim C2: the claim says every `MetricObservation` belongs to exactly
one of `current`/`used`/`unused` and both operations preserve this. After
`update_metric_observations` runs on a history with sixteen used
observations, the first pre-consolidation observation is a member of both
`used` and `unused` simultaneously, because line 276 copies `used` into
`unused` without clearing `used`. -/
theorem C2_disjointness_violated :
    (⟨"t", [0]⟩ : MetricObservation) ∈
      (update_metric_observations h16 [("c", "[0, 1]")]).1.used ∧
    (⟨"t", [0]⟩ : MetricObservation) ∈
      (update_metric_observations h16 [("c", "[0, 1]")]).1.unused := by
  refine ⟨by decide, by decide⟩

/-- Counterexample to claim C3 as stated: with a three-row devset whose
failing rows are exactly row 0 (rendering not the sentinel, every row of
cost 1 against budget 2000), a completion citing index 1 — a row that is
in the devset but not among the failing rows — yields a MetricObservation
whose exemplar row 1 is not a member of the failing rows. -/
theorem C3_counterexample :
    propose_metric_observations cost1 h3 [0] [("s", "[1]")] =
      .ok (⟨[⟨"s", [1]⟩], [], [], 3, 15, 2000, 600⟩, false) ∧
    isNoneShown (budgeted_df_stringify cost1 [0] h3.tokensIncorrect) = false ∧
    ¬ ((1 : Nat) ∈ ([0] : List Nat)) := by
  refine ⟨rfl, rfl, by decide⟩

/-- Claim C3 (amended): when the failing-rows rendering is not the
none-shown sentinel and `propose_metric_observations` succeeds, every
constructed MetricObservation's exemplar rows are devset rows at in-bounds
cited indices — a subset of the full devset (indices `< len(devset)`), not
necessarily of the failing rows — with each observation's exemplar labels
exactly the in-bounds filtered digit runs of its completion's index field;
out-of-bounds indices are silently dropped, and the warning is observable
(flag true) exactly when a drop occurred. -/
theorem C3_exemplars_in_devset_bounds
    (cost : Nat → Nat) (h : History) (failed : List Nat)
    (comps : List (String × String)) (h' : History) (w : Bool)
    (hns : isNoneShown (budgeted_df_stringify cost failed h.tokensIncorrect) = false)
    (hok : propose_metric_observations cost h failed comps = .ok (h', w)) :
    (∀ o ∈ h'.current, ∀ j ∈ o.exemplarIdx, j < h.devsetLen) ∧
    (∀ pr ∈ comps.zip h'.current, pr.2.summary = pr.1.1 ∧
      pr.2.exemplarIdx = (safe_strip pr.1.2).filter (fun j => j < h.devsetLen)) ∧
    (w = true ↔ ∃ c ∈ comps, ∃ j ∈ safe_strip c.2, h.devsetLen ≤ j) ∧
    h'.used = h.used ++ h.current ∧ h'.unused = h.unused := by
  unfold propose_metric_observations at hok
  simp only [hns, Bool.false_eq_true, if_false, ite_false] at hok
  cases hrec : processComps h.devsetLen comps with
  | error e => rw [hrec] at hok; simp at hok
  | ok pr =>
    obtain ⟨newObs, w'⟩ := pr
    rw [hrec] at hok
    simp only [Except.ok.injEq, Prod.mk.injEq] at hok
    obtain ⟨hh, hw⟩ := hok
    subst hh; subst hw
    obtain ⟨hlen, hzip, hbound, hwiff⟩ := processComps_spec h.devsetLen comps newObs w' hrec
    exact ⟨hbound, hzip, hwiff, rfl, rfl⟩

/-- Witness for the amended claim C3 at a concrete input: sentinel absent,
one completion citing indices 1 and 7 over a three-row devset; index 7 is
dropped, the surviving exemplar label is in bounds, and the warning flag
is set. -/
theorem C3_witness :
    (isNoneShown (budgeted_df_stringify cost1 [0] h3.tokensIncorrect) = false) ∧
    (propose_metric_observations cost1 h3 [0] [("s", "[1, 7]")] =
      .ok (⟨[⟨"s", [1]⟩], [], [], 3, 15, 2000, 600⟩, true)) ∧
    (∀ o ∈ (⟨[⟨"s", [1]⟩], [], [], 3, 15, 2000, 600⟩ : History).current,
      ∀ j ∈ o.exemplarIdx, j < h3.devsetLen) :=
  ⟨rfl, rfl,
    (C3_exemplars_in_devset_bounds cost1 h3 [0] [("s", "[1, 7]")]
      ⟨[⟨"s", [1]⟩], [], [], 3, 15, 2000, 600⟩ true rfl rfl).1⟩

/-- Claim C4: the claim says that when the failing-rows rendering returned
the none-shown sentinel, every completion's exemplar list is forced empty
and each completion still produces a MetricObservation with no exemplar
rows rather than an error. Line 255 does force the lists empty, but the
loop then runs `safe_strip` on the forced empty list (whose string form is
`"[]"`, containing no digit runs) and the empty-parse guard at lines
259-260 raises `ValueError("Exemplar parsing failed")` on the first
completion, so the sentinel path always errors instead of producing
observations. -/
theorem C4_sentinel_path_raises :
    budgeted_df_stringify cost1 ([] : List Nat) h3.tokensIncorrect =
      .noneShown 0 ∧
    safe_strip "[]" = [] ∧
    propose_metric_observations cost1 h3 [] [("s", "[1, 2]")] =
      .error "Exemplar parsing failed" := by
  refine ⟨rfl, rfl, rfl⟩

/-- Monotonicity of the greedy keep count in the budget. -/
theorem budgetedKeep_mono (cost : α → Nat) :
    ∀ (rows : List α) (b1 b2 : Nat), b1 ≤ b2 →
      budgetedKeep cost b1 rows ≤ budgetedKeep cost b2 rows := by
  intro rows
  induction rows with
  | nil => intro b1 b2 _; simp [budgetedKeep]
  | cons r rs ih =>
    intro b1 b2 hb
    unfold budgetedKeep
    by_cases h2 : b2 < cost r
    · have h1 : b1 < cost r := lt_of_le_of_lt hb h2
      simp [h1, h2]
    · by_cases h1 : b1 < cost r
      · simp [h1, h2]
      · simp only [h1, h2, if_false, ite_false]
        exact Nat.succ_le_succ (ih _ _ (by omega))

/-- Claim C8: the greedy token-budget renderer is monotonic in the budget
(a larger budget never includes fewer rows); rows are included greedily in
order with the included row's cost deducted, stopping at the first row
that does not fit; and a budget smaller than the first row's token cost —
in particular a budget of 0 whenever the first row has positive cost —
yields the none-shown sentinel stating the row count. -/
theorem C8_renderer_monotone (cost : α → Nat) :
    (∀ (rows : List α) (b1 b2 : Nat), b1 ≤ b2 →
      budgetedKeep cost b1 rows ≤ budgetedKeep cost b2 rows) ∧
    (∀ (r : α) (rs : List α) (budget : Nat), cost r ≤ budget →
      budgetedKeep cost budget (r :: rs) =
        budgetedKeep cost (budget - cost r) rs + 1) ∧
    (∀ (r : α) (rs : List α) (budget : Nat), budget < cost r →
      budgeted_df_stringify cost (r :: rs) budget = .noneShown (rs.length + 1)) ∧
    (∀ (r : α) (rs : List α), 0 < cost r →
      budgeted_df_stringify cost (r :: rs) 0 = .noneShown (rs.length + 1)) := by
  refine ⟨budgetedKeep_mono cost, ?_, ?_, ?_⟩
  · intro r rs budget hfit
    have hlt : ¬ budget < cost r := Nat.not_lt_of_le hfit
    simp [budgetedKeep, hlt]
  · intro r rs budget hover
    unfold budgeted_df_stringify budgetedKeep
    simp [hover]
  · intro r rs hpos
    unfold budgeted_df_stringify budgetedKeep
    simp [hpos]

/-- Witness for claim C8 at concrete inputs: unit row costs, a two-row
table, budgets 0 and 300. -/
theorem C8_witness :
    ((0 : Nat) ≤ 300 ∧
      budgetedKeep cost1 0 [5, 6] ≤ budgetedKeep cost1 300 [5, 6]) ∧
    (cost1 5 ≤ 300 ∧
      budgetedKeep cost1 300 [5, 6] =
        budgetedKeep cost1 (300 - cost1 5) [6] + 1) ∧
    (0 < cost1 5 ∧
      budgeted_df_stringify cost1 [5, 6] 0 = .noneShown ([6].length + 1)) :=
  ⟨⟨by decide, (C8_renderer_monotone cost1).1 [5, 6] 0 300 (by decide)⟩,
   ⟨by decide, (C8_renderer_monotone cost1).2.1 5 [6] 300 (by decide)⟩,
   ⟨by decide, (C8_renderer_monotone cost1).2.2.2 5 [6] (by decide)⟩⟩

/-- Claim C9: the depth-0 candidate pool for a predictor consists of the
`breadth - 1` generated completions with the predictor's original
instruction and prefix appended as the final, `breadth`-th candidate, so
the unmodified baseline is always among the candidates evaluated. -/
theorem C9_seed_pool (genInstr genPfx : List String) (bi bp : String)
    (B : Nat) (hB : 1 ≤ B)
    (hI : genInstr.length = B - 1) (hP : genPfx.length = B - 1) :
    (seedCandidates genInstr genPfx bi bp).1.length = B ∧
    (seedCandidates genInstr genPfx bi bp).2.length = B ∧
    (seedCandidates genInstr genPfx bi bp).1.getLast? = some bi ∧
    (seedCandidates genInstr genPfx bi bp).2.getLast? = some bp ∧
    bi ∈ (seedCandidates genInstr genPfx bi bp).1 ∧
    bp ∈ (seedCandidates genInstr genPfx bi bp).2 := by
  unfold seedCandidates
  refine ⟨?_, ?_, ?_, ?_, ?_, ?_⟩
  · simp [hI]; omega
  · simp [hP]; omega
  · simp [List.getLast?_concat]
  · simp [List.getLast?_concat]
  · simp
  · simp

/-- Witness for claim C9 with breadth 3: two generated completions plus
the original pair. -/
theorem C9_witness :
    ((1 : Nat) ≤ 3 ∧ (["a", "b"] : List String).length = 3 - 1) ∧
    (seedCandidates ["a", "b"] ["c", "d"] "i0" "p0").1.length = 3 ∧
    (seedCandidates ["a", "b"] ["c", "d"] "i0" "p0").1.getLast? = some "i0" :=
  ⟨⟨by decide, by decide⟩,
   (C9_seed_pool ["a", "b"] ["c", "d"] "i0" "p0" 3 (by decide)
      (by decide) (by decide)).1,
   (C9_seed_pool ["a", "b"] ["c", "d"] "i0" "p0" 3 (by decide)
      (by decide) (by decide)).2.2.1⟩

/-- Claim C10: `MetricObservation.__str__` indexes the first exemplar row
before any emptiness check, so it is total only when `failure_exemplars`
is nonempty (first conjunct); on an observation with zero exemplar rows it
fails (`none`, the IndexError branch) instead of returning the sentinel
(second conjunct); and such an observation is constructible by
consolidation when a completion cites no in-range parent observations
(third conjunct: a history of sixteen used observations and a completion
citing only the out-of-range parent 99 appends an observation with empty
exemplar rows, whose rendering then fails). -/
theorem C10_render_empty_unsafe :
    (∀ (md : List Nat → String) (cost : Nat → Nat) (obs : MetricObservation),
      obs.exemplarIdx ≠ [] → ∃ s, metricObservationStr md cost obs = some s) ∧
    metricObservationStr mdLen cost1 ⟨"c", []⟩ = none ∧
    (⟨"c", []⟩ : MetricObservation) ∈
      (update_metric_observations h16 [("c", "[99]")]).1.used := by
  refine ⟨?_, rfl, by decide⟩
  intro md cost obs hne
  refine Option.isSome_iff_exists.mp ?_
  unfold metricObservationStr
  cases hx : obs.exemplarIdx with
  | nil => exact absurd hx hne
  | cons r rs =>
    dsimp only
    split <;> simp

/-- Witness for claim C10 at a concrete nonempty observation. -/
theorem C10_witness :
    ((⟨"x", [0]⟩ : MetricObservation).exemplarIdx ≠ []) ∧
    (∃ s, metricObservationStr mdLen cost1 ⟨"x", [0]⟩ = some s) :=
  ⟨by decide, C10_render_empty_unsafe.1 mdLen cost1 ⟨"x", [0]⟩ (by decide)⟩

/-- Closed form of the `__str__` loop: starting at position `n` with the
total row count `d` matching the invariant, the loop keeps the greedy
count of the renderer, capped so that the running position never exceeds
`d - 1`. -/
theorem strKeepGo_cap (cost : α → Nat) (d : Nat) :
    ∀ (rs : List α) (r : α) (n b : Nat), n + rs.length + 1 = d →
      strKeepGo cost d b n (r :: rs) =
        n + min (budgetedKeep cost b (r :: rs)) (max 1 rs.length) := by
  intro rs
  induction rs with
  | nil =>
    intro r n b hd
    simp only [List.length_nil] at hd
    by_cases hc : b < cost r
    · simp [strKeepGo, budgetedKeep, hc]
    · have hbreak : d - 1 ≤ n + 1 := by omega
      simp [strKeepGo, budgetedKeep, hc, hbreak]
  | cons r' rs' ih =>
    intro r n b hd
    simp only [List.length_cons] at hd
    by_cases hc : b < cost r
    · simp [strKeepGo, budgetedKeep, hc]
    · by_cases hbreak : d - 1 ≤ n + 1
      · have hrs : rs'.length = 0 := by omega
        have hrs' : rs' = [] := List.length_eq_zero.mp hrs
        subst hrs'
        have hK : budgetedKeep cost b (r :: [r']) =
            budgetedKeep cost (b - cost r) [r'] + 1 := by
          simp [budgetedKeep, hc]
        simp only [strKeepGo, if_neg hc, if_pos hbreak, hK, List.length_cons,
          List.length_nil]
        omega
      · have hrslen : 1 ≤ rs'.length := by omega
        have hstep : strKeepGo cost d b n (r :: r' :: rs') =
            strKeepGo cost d (b - cost r) (n + 1) (r' :: rs') := by
          simp [strKeepGo, hc, hbreak]
        rw [hstep, ih r' (n + 1) (b - cost r) (by omega)]
        have hK : budgetedKeep cost b (r :: r' :: rs') =
            budgetedKeep cost (b - cost r) (r' :: rs') + 1 := by
          simp [budgetedKeep, hc]
        rw [hK]
        simp only [List.length_cons]
        omega

/-- Counterexample to claim C6 as stated: with unit row costs, two rows
and budget 300, the TokenBudgetRenderer rule includes both rows (each fits
the remaining budget), but `__str__` includes only one, because its loop
also breaks once the kept count reaches `len(failure_exemplars) - 1`
(line 192) — so the two inclusion rules are not the same. -/
theorem C6_counterexample :
    strKeepCount cost1 300 [0, 1] = 1 ∧
    budgetedKeep cost1 300 [0, 1] = 2 := by
  refine ⟨by decide, by decide⟩

/-- Claim C6 (amended): `MetricObservation.__str__` applies the greedy
token-budget rule of TokenBudgetRenderer to `failure_exemplars` under the
fixed 300-token budget, but additionally caps the number of rows shown at
`len(failure_exemplars) - 1` (with a single row still showable), so with
two or more rows the final row is never included even when it fits; the
result is "Summary: {summary}\nFailure Exemplars: {rendered}", with the
none-shown sentinel text when zero rows fit. -/
theorem C6_render_capped (cost : Nat → Nat) (md : List Nat → String)
    (s : String) (r : Nat) (rs : List Nat) :
    strKeepCount cost 300 (r :: rs) =
      min (budgetedKeep cost 300 (r :: rs)) (max 1 rs.length) ∧
    (strKeepCount cost 300 (r :: rs) = 0 →
      metricObservationStr md cost ⟨s, r :: rs⟩ =
        some ("Summary: " ++ s ++ "\nFailure Exemplars: None Shown - "
          ++ toString (rs.length + 1) ++ " present, too long to show")) ∧
    (strKeepCount cost 300 (r :: rs) ≠ 0 →
      metricObservationStr md cost ⟨s, r :: rs⟩ =
        some ("Summary: " ++ s ++ "\nFailure Exemplars: "
          ++ md ((r :: rs).take (strKeepCount cost 300 (r :: rs))))) := by
  refine ⟨?_, ?_, ?_⟩
  · have := strKeepGo_cap cost (r :: rs).length rs r 0 300 (by simp)
    simpa [strKeepCount] using this
  · intro hk
    simp [metricObservationStr, hk]
  · intro hk
    simp [metricObservationStr, hk]

/-- Witness for the amended claim C6: a single-row observation with unit
cost renders its one row under the markdown formatter. -/
theorem C6_witness :
    (strKeepCount cost1 300 [7] ≠ 0) ∧
    metricObservationStr mdLen cost1 ⟨"s", [7]⟩ =
      some ("Summary: " ++ "s" ++ "\nFailure Exemplars: "
        ++ mdLen ([7].take (strKeepCount cost1 300 [7]))) :=
  ⟨by decide, (C6_render_capped cost1 mdLen "s" 7 []).2.2 (by decide)⟩

/-- Lookup after an in-place overwrite of key `k` finds the new record. -/
theorem lookupCandidate_map_overwrite (k : String × String) (r : EvalRecord) :
    ∀ (s : List ((String × String) × EvalRecord)) (r0 : EvalRecord),
      lookupCandidate s k = some r0 →
      lookupCandidate (s.map (fun e => if e.1 = k then (k, r) else e)) k =
        some r := by
  intro s
  induction s with
  | nil => intro r0 h; simp [lookupCandidate] at h
  | cons e es ih =>
    intro r0 h
    by_cases hk : e.1 = k
    · simp [lookupCandidate, hk]
    · simp only [lookupCandidate, hk, if_false, ite_false] at h
      simp only [List.map_cons, if_neg hk]
      simpa [lookupCandidate, hk] using ih r0 h

/-- An in-place overwrite of key `k` leaves the key sequence unchanged. -/
theorem map_overwrite_keys (k : String × String) (r : EvalRecord) :
    ∀ (s : List ((String × String) × EvalRecord)),
      (s.map (fun e => if e.1 = k then (k, r) else e)).map Prod.fst =
        s.map Prod.fst := by
  intro s
  induction s with
  | nil => simp
  | cons e es ih =>
    by_cases hk : e.1 = k
    · simp [hk, ih]
    · simp [hk, ih]

/-- Unfolding of the CPython `max` fold over a cons cell. -/
theorem bestFold_cons (b : EvalRecord) (e : (String × String) × EvalRecord)
    (es : List ((String × String) × EvalRecord)) :
    bestFold b (e :: es) =
      bestFold (if b.score < e.2.score then e.2 else b) es := rfl

/-- Specification of the CPython `max` fold: the result is the seed when
nothing beats it, otherwise the first list element attaining the maximum
(everything is bounded by it, everything strictly earlier is strictly
below it, and the seed is strictly below it). -/
theorem bestFold_spec :
    ∀ (es : List ((String × String) × EvalRecord)) (b : EvalRecord),
      (bestFold b es = b ∧ ∀ e ∈ es, e.2.score ≤ b.score) ∨
      (∃ i, ∃ hi : i < es.length, bestFold b es = es[i].2 ∧
        b.score < es[i].2.score ∧
        (∀ j, ∀ hj : j < es.length, es[j].2.score ≤ es[i].2.score) ∧
        (∀ j, ∀ hj : j < es.length, j < i → es[j].2.score < es[i].2.score)) := by
  intro es
  induction es with
  | nil => intro b; left; exact ⟨rfl, by simp⟩
  | cons e es ih =>
    intro b
    rw [bestFold_cons]
    by_cases hbe : b.score < e.2.score
    · rw [if_pos hbe]
      rcases ih e.2 with ⟨heq, hall⟩ | ⟨i, hi, heq, hlt, hub, hfirst⟩
      · right
        refine ⟨0, by simp, by simpa using heq, by simpa using hbe, ?_, ?_⟩
        · intro j hj
          cases j with
          | zero => simp
          | succ j =>
            simp only [List.getElem_cons_succ, List.getElem_cons_zero]
            exact hall _ (List.getElem_mem _)
        · intro j hj hj0
          omega
      · right
        refine ⟨i + 1, by simpa using hi, by simpa using heq, ?_, ?_, ?_⟩
        · simpa using lt_trans hbe hlt
        · intro j hj
          cases j with
          | zero =>
            simp only [List.getElem_cons_succ, List.getElem_cons_zero]
            exact le_of_lt hlt
          | succ j =>
            simp only [List.getElem_cons_succ]
            exact hub j (by simpa using hj)
        · intro j hj hji
          cases j with
          | zero =>
            simp only [List.getElem_cons_succ, List.getElem_cons_zero]
            exact hlt
          | succ j =>
            simp only [List.getElem_cons_succ]
            exact hfirst j (by simpa using hj) (by omega)
    · rw [if_neg hbe]
      rcases ih b with ⟨heq, hall⟩ | ⟨i, hi, heq, hlt, hub, hfirst⟩
      · left
        refine ⟨heq, ?_⟩
        intro e' he'
        rcases List.mem_cons.mp he' with he' | he'
        · subst he'; omega
        · exact hall e' he'
      · right
        refine ⟨i + 1, by simpa using hi, by simpa using heq, hlt, ?_, ?_⟩
        · intro j hj
          cases j with
          | zero =>
            simp only [List.getElem_cons_succ, List.getElem_cons_zero]
            omega
          | succ j =>
            simp only [List.getElem_cons_succ]
            exact hub j (by simpa using hj)
        · intro j hj hji
          cases j with
          | zero =>
            simp only [List.getElem_cons_succ, List.getElem_cons_zero]
            omega
          | succ j =>
            simp only [List.getElem_cons_succ]
            exact hfirst j (by simpa using hj) (by omega)

/-- Claim C5: the per-predictor candidate store inserts an absent
`(instruction, prefix)` identity; an existing entry is overwritten only on
a strictly greater score (equal or lower scores leave the store literally
unchanged, so `record` is idempotent for non-improving scores); a strict
improvement overwrites the stored record in place without disturbing the
key sequence; and `best` returns the record with the maximum score, ties
broken by insertion order — the first maximum found wins. -/
theorem C5_candidate_store (s : List ((String × String) × EvalRecord))
    (k : String × String) (r : EvalRecord) :
    (lookupCandidate s k = none → recordCandidate s k r = s ++ [(k, r)]) ∧
    (∀ r0, lookupCandidate s k = some r0 → r.score ≤ r0.score →
      recordCandidate s k r = s) ∧
    (∀ r0, lookupCandidate s k = some r0 → r0.score < r.score →
      lookupCandidate (recordCandidate s k r) k = some r ∧
      (recordCandidate s k r).map Prod.fst = s.map Prod.fst) ∧
    (s ≠ [] → ∃ i, ∃ hi : i < s.length, bestCandidate s = some (s[i].2) ∧
      (∀ j, ∀ hj : j < s.length, s[j].2.score ≤ s[i].2.score) ∧
      (∀ j, ∀ hj : j < s.length, j < i → s[j].2.score < s[i].2.score)) := by
  refine ⟨?_, ?_, ?_, ?_⟩
  · intro hnone
    simp [recordCandidate, hnone]
  · intro r0 hsome hle
    simp [recordCandidate, hsome, hle]
  · intro r0 hsome hgt
    have hnle : ¬ r.score ≤ r0.score := not_le_of_lt hgt
    simp only [recordCandidate, hsome, hnle, if_false, ite_false]
    exact ⟨lookupCandidate_map_overwrite k r s r0 hsome, map_overwrite_keys k r s⟩
  · intro hne
    cases s with
    | nil => exact absurd rfl hne
    | cons e es =>
      rcases bestFold_spec es e.2 with ⟨heq, hall⟩ | ⟨i, hi, heq, hlt, hub, hfirst⟩
      · refine ⟨0, by simp, ?_, ?_, ?_⟩
        · simp [bestCandidate, heq]
        · intro j hj
          cases j with
          | zero => simp
          | succ j =>
            simp only [List.getElem_cons_succ, List.getElem_cons_zero]
            exact hall _ (List.getElem_mem _)
        · intro j hj hj0
          omega
      · refine ⟨i + 1, by simpa using hi, ?_, ?_, ?_⟩
        · simp [bestCandidate, heq]
        · intro j hj
          cases j with
          | zero =>
            simp only [List.getElem_cons_succ, List.getElem_cons_zero]
            exact le_of_lt hlt
          | succ j =>
            simp only [List.getElem_cons_succ]
            exact hub j (by simpa using hj)
        · intro j hj hji
          cases j with
          | zero =>
            simp only [List.getElem_cons_succ, List.getElem_cons_zero]
            exact hlt
          | succ j =>
            simp only [List.getElem_cons_succ]
            exact hfirst j (by simpa using hj) (by omega)

/-- Witness for claim C5 at a concrete store: an existing key with a
non-improving score is left unchanged, and `best` picks the first of the
two tied maxima. -/
theorem C5_witness :
    (lookupCandidate
        [(("i", "p"), ⟨5, "i", "p", 0, 0⟩), (("i2", "p2"), ⟨7, "i2", "p2", 0, 1⟩),
          (("i3", "p3"), ⟨7, "i3", "p3", 1, 2⟩)] ("i", "p") =
      some ⟨5, "i", "p", 0, 0⟩) ∧
    ((⟨5, "i", "p", 1, 3⟩ : EvalRecord).score ≤ (⟨5, "i", "p", 0, 0⟩ : EvalRecord).score) ∧
    recordCandidate
        [(("i", "p"), ⟨5, "i", "p", 0, 0⟩), (("i2", "p2"), ⟨7, "i2", "p2", 0, 1⟩),
          (("i3", "p3"), ⟨7, "i3", "p3", 1, 2⟩)] ("i", "p") ⟨5, "i", "p", 1, 3⟩ =
      [(("i", "p"), ⟨5, "i", "p", 0, 0⟩), (("i2", "p2"), ⟨7, "i2", "p2", 0, 1⟩),
        (("i3", "p3"), ⟨7, "i3", "p3", 1, 2⟩)] :=
  ⟨by decide, by decide,
    (C5_candidate_store
      [(("i", "p"), ⟨5, "i", "p", 0, 0⟩), (("i2", "p2"), ⟨7, "i2", "p2", 0, 1⟩),
        (("i3", "p3"), ⟨7, "i3", "p3", 1, 2⟩)] ("i", "p")
      ⟨5, "i", "p", 1, 3⟩).2.1 ⟨5, "i", "p", 0, 0⟩ (by decide) (by decide)⟩

/-- Symmetry of the per-predictor-pair equality test. -/
theorem predPairEq_symm (p q : PredSig) : predPairEq p q = predPairEq q p := by
  unfold predPairEq
  congr 1
  · exact decide_eq_decide.mpr ⟨Eq.symm, Eq.symm⟩
  · exact decide_eq_decide.mpr ⟨Eq.symm, Eq.symm⟩

/-- A self-zip passes the pairwise equality test. -/
theorem zipAll_self (l : List PredSig) :
    (l.zip l).all (fun pq => predPairEq pq.1 pq.2) = true := by
  induction l with
  | nil => rfl
  | cons p l ih =>
    simp only [List.zip_cons_cons, List.all_cons, Bool.and_eq_true]
    exact ⟨by simp [predPairEq], ih⟩

/-- Swapping the zipped lists swaps nothing observable. -/
theorem zipAll_symm :
    ∀ (l1 l2 : List PredSig),
      (l1.zip l2).all (fun pq => predPairEq pq.1 pq.2) =
      (l2.zip l1).all (fun pq => predPairEq pq.1 pq.2) := by
  intro l1
  induction l1 with
  | nil => intro l2; cases l2 <;> simp
  | cons p l1 ih =>
    intro l2
    cases l2 with
    | nil => simp
    | cons q l2 =>
      simp only [List.zip_cons_cons, List.all_cons]
      rw [predPairEq_symm p q, ih l2]

/-- Reflexivity of `_check_candidates_equal`. -/
theorem checkCandidatesEqual_refl (c : CandRecord) :
    checkCandidatesEqual c c = true :=
  zipAll_self c.preds

/-- Symmetry of `_check_candidates_equal`. -/
theorem checkCandidatesEqual_symm (c1 c2 : CandRecord) :
    checkCandidatesEqual c1 c2 = checkCandidatesEqual c2 c1 :=
  zipAll_symm c1.preds c2.preds

/-- The deduplication loop only ever discards candidates. -/
theorem dropDupGo_sublist :
    ∀ (cs : List CandRecord) (ls : Int) (lb : List CandRecord),
      List.Sublist (dropDupGo lb ls cs) cs := by
  intro cs
  induction cs with
  | nil => intro ls lb; simp [dropDupGo]
  | cons c cs ih =>
    intro ls lb
    simp only [dropDupGo]
    rcases eq_or_ne c.score ls with hsc | hsc
    · rw [if_pos hsc]
      by_cases hdup : (lb.any fun c2 => checkCandidatesEqual c c2) = true
      · rw [if_pos hdup]
        exact (ih ls lb).cons c
      · rw [if_neg hdup]
        exact (ih ls (lb ++ [c])).cons₂ c
    · rw [if_neg hsc]
      exact (ih c.score [c]).cons₂ c

/-- Batch invariant of the deduplication loop: while the running score is
`ls` and every batch member has score `ls`, any candidate the loop emits
with score `ls` failed the batch equality test against every batch member
present at entry. -/
theorem dropDupGo_batch :
    ∀ (cs : List CandRecord), ∀ (ls : Int) (lb : List CandRecord),
      (∀ b ∈ lb, b.score = ls) →
      List.Pairwise (fun a b => b.score ≤ a.score) cs →
      (∀ c ∈ cs, c.score ≤ ls) →
      ∀ y ∈ dropDupGo lb ls cs, y.score = ls →
        ∀ b ∈ lb, checkCandidatesEqual y b = false := by
  intro cs
  induction cs with
  | nil => intro ls lb _ _ _ y hy; simp [dropDupGo] at hy
  | cons c cs ih =>
    intro ls lb hlb hp hall y hy hyls b hb
    obtain ⟨hrel, htail⟩ := List.pairwise_cons.mp hp
    have hcls : c.score ≤ ls := hall c (by simp)
    have htle : ∀ x ∈ cs, x.score ≤ ls := fun x hx => hall x (by simp [hx])
    simp only [dropDupGo] at hy
    rcases eq_or_ne c.score ls with hsc | hsc
    · rw [if_pos hsc] at hy
      by_cases hdup : (lb.any fun c2 => checkCandidatesEqual c c2) = true
      · rw [if_pos hdup] at hy
        exact ih ls lb hlb htail htle y hy hyls b hb
      · rw [if_neg hdup] at hy
        rcases List.mem_cons.mp hy with hy | hy
        · subst hy
          have hfalse : (lb.any fun c2 => checkCandidatesEqual y c2) = false := by
            simpa using hdup
          simpa using List.any_eq_false.mp hfalse b hb
        · have hlb' : ∀ b' ∈ lb ++ [c], b'.score = ls := by
            intro b' hb'
            rcases List.mem_append.mp hb' with h | h
            · exact hlb b' h
            · simp at h; subst h; exact hsc
          exact ih ls (lb ++ [c]) hlb' htail htle y hy hyls b
            (List.mem_append.mpr (Or.inl hb))
    · rw [if_neg hsc] at hy
      rcases List.mem_cons.mp hy with hy | hy
      · subst hy; exact absurd hyls hsc
      · have hmem : y ∈ cs := (dropDupGo_sublist cs c.score [c]).mem hy
        have : y.score ≤ c.score := hrel y hmem
        have : y.score < ls := lt_of_le_of_lt this (lt_of_le_of_ne hcls hsc)
        omega

/-- Output of the deduplication loop: no two emitted candidates of equal
score pass the equality test. -/
theorem dropDupGo_pairwise :
    ∀ (cs : List CandRecord), ∀ (ls : Int) (lb : List CandRecord),
      (∀ b ∈ lb, b.score = ls) →
      List.Pairwise (fun a b => b.score ≤ a.score) cs →
      (∀ c ∈ cs, c.score ≤ ls) →
      List.Pairwise
        (fun a b => a.score = b.score → checkCandidatesEqual a b = false)
        (dropDupGo lb ls cs) := by
  intro cs
  induction cs with
  | nil => intro ls lb _ _ _; simp [dropDupGo]
  | cons c cs ih =>
    intro ls lb hlb hp hall
    obtain ⟨hrel, htail⟩ := List.pairwise_cons.mp hp
    have hcls : c.score ≤ ls := hall c (by simp)
    have htle : ∀ x ∈ cs, x.score ≤ ls := fun x hx => hall x (by simp [hx])
    simp only [dropDupGo]
    rcases eq_or_ne c.score ls with hsc | hsc
    · rw [if_pos hsc]
      by_cases hdup : (lb.any fun c2 => checkCandidatesEqual c c2) = true
      · rw [if_pos hdup]
        exact ih ls lb hlb htail htle
      · rw [if_neg hdup]
        have hlb' : ∀ b' ∈ lb ++ [c], b'.score = ls := by
          intro b' hb'
          rcases List.mem_append.mp hb' with h | h
          · exact hlb b' h
          · simp at h; subst h; exact hsc
        refine List.pairwise_cons.mpr ⟨?_, ih ls (lb ++ [c]) hlb' htail htle⟩
        intro y hy hcy
        have hyls : y.score = ls := by omega
        have := dropDupGo_batch cs ls (lb ++ [c]) hlb' htail htle y hy hyls c
          (List.mem_append.mpr (Or.inr (by simp)))
        rw [checkCandidatesEqual_symm]
        exact this
    · rw [if_neg hsc]
      have hlb' : ∀ b' ∈ [c], b'.score = c.score := by simp
      refine List.pairwise_cons.mpr ⟨?_, ih c.score [c] hlb' htail hrel⟩
      intro y hy hcy
      have := dropDupGo_batch cs c.score [c] hlb' htail hrel y hy hcy.symm c
        (by simp)
      rw [checkCandidatesEqual_symm]
      exact this

/-- Coverage of the deduplication loop: every processed candidate has a
same-score equal representative either in the entry batch or among the
emitted candidates. -/
theorem dropDupGo_cover :
    ∀ (cs : List CandRecord), ∀ (ls : Int) (lb : List CandRecord),
      (∀ b ∈ lb, b.score = ls) →
      List.Pairwise (fun a b => b.score ≤ a.score) cs →
      (∀ c ∈ cs, c.score ≤ ls) →
      ∀ c ∈ cs, ∃ c', (c' ∈ lb ∨ c' ∈ dropDupGo lb ls cs) ∧
        c'.score = c.score ∧ checkCandidatesEqual c' c = true := by
  intro cs
  induction cs with
  | nil => intro ls lb _ _ _ c hc; simp at hc
  | cons c cs ih =>
    intro ls lb hlb hp hall c0 hc0
    obtain ⟨hrel, htail⟩ := List.pairwise_cons.mp hp
    have htle : ∀ x ∈ cs, x.score ≤ ls := fun x hx => hall x (by simp [hx])
    simp only [dropDupGo]
    rcases eq_or_ne c.score ls with hsc | hsc
    · rw [if_pos hsc]
      by_cases hdup : (lb.any fun c2 => checkCandidatesEqual c c2) = true
      · rw [if_pos hdup]
        rcases List.mem_cons.mp hc0 with hc0 | hc0
        · subst hc0
          obtain ⟨b, hb, hbeq⟩ := List.any_eq_true.mp hdup
          refine ⟨b, Or.inl hb, ?_, ?_⟩
          · rw [hlb b hb, hsc]
          · rw [checkCandidatesEqual_symm]; exact hbeq
        · exact ih ls lb hlb htail htle c0 hc0
      · rw [if_neg hdup]
        rcases List.mem_cons.mp hc0 with hc0 | hc0
        · subst hc0
          exact ⟨c0, Or.inr (by simp), rfl, checkCandidatesEqual_refl c0⟩
        · have hlb' : ∀ b' ∈ lb ++ [c], b'.score = ls := by
            intro b' hb'
            rcases List.mem_append.mp hb' with h | h
            · exact hlb b' h
            · simp at h; subst h; exact hsc
          obtain ⟨c', hc', hsc', heq'⟩ := ih ls (lb ++ [c]) hlb' htail htle c0 hc0
          rcases hc' with hc' | hc'
          · rcases List.mem_append.mp hc' with h | h
            · exact ⟨c', Or.inl h, hsc', heq'⟩
            · simp at h; subst h
              exact ⟨c', Or.inr (by simp), hsc', heq'⟩
          · exact ⟨c', Or.inr (List.mem_cons_of_mem c hc'), hsc', heq'⟩
    · rw [if_neg hsc]
      rcases List.mem_cons.mp hc0 with hc0 | hc0
      · subst hc0
        exact ⟨c0, Or.inr (by simp), rfl, checkCandidatesEqual_refl c0⟩
      · have hlb' : ∀ b' ∈ [c], b'.score = c.score := by simp
        obtain ⟨c', hc', hsc', heq'⟩ := ih c.score [c] hlb' htail hrel c0 hc0
        rcases hc' with hc' | hc'
        · simp at hc'; subst hc'
          exact ⟨c', Or.inr (by simp), hsc', heq'⟩
        · exact ⟨c', Or.inr (List.mem_cons_of_mem c hc'), hsc', heq'⟩

/-- Entry unfolding of `_drop_duplicates`: whatever the first candidate's
score, it is kept and the loop continues with the batch `[c]` and the
running score `c.score` (the `-1` initialization only matters until the
first element is seen). -/
theorem dropDuplicates_cons (c : CandRecord) (cs : List CandRecord) :
    dropDuplicates (c :: cs) = c :: dropDupGo [c] c.score cs := by
  unfold dropDuplicates
  simp only [dropDupGo]
  rcases eq_or_ne c.score (-1 : Int) with hsc | hsc
  · rw [if_pos hsc]
    simp only [List.any_nil, Bool.false_eq_true, if_false, ite_false,
      List.nil_append]
    rw [hsc]
  · rw [if_neg hsc]

/-- Claim C7: on the sorted final candidate list, deduplication keeps a
sublist (so the result stays sorted by score descending); no two surviving
records have identical score and identical per-predictor
(instruction, last field) data; a record is dropped only in favour of a
distinct surviving record with the same score that passes the equality
test (so two records differing in score or in any predictor position both
survive when nothing else matches them); the first element — whose program
snapshot `compile` returns at line 509 — is preserved; and, whenever the
untouched field metadata agrees position-wise (as holds for all snapshots
produced by `compile`, which only ever `_replace`s the field name), the
equality test coincides with per-position equality of instruction text and
output-field name. -/
theorem C7_dedup (cands : List CandRecord)
    (hs : List.Pairwise (fun a b => b.score ≤ a.score) cands) :
    List.Sublist (dropDuplicates cands) cands ∧
    List.Pairwise (fun a b => b.score ≤ a.score) (dropDuplicates cands) ∧
    List.Pairwise
      (fun a b => a.score = b.score → checkCandidatesEqual a b = false)
      (dropDuplicates cands) ∧
    (∀ c ∈ cands, c ∉ dropDuplicates cands →
      ∃ c' ∈ dropDuplicates cands, c' ≠ c ∧ c'.score = c.score ∧
        checkCandidatesEqual c' c = true) ∧
    (dropDuplicates cands).head? = cands.head? ∧
    (∀ c1 c2 : CandRecord,
      (∀ pq ∈ c1.preds.zip c2.preds, pq.1.lastField.meta = pq.2.lastField.meta) →
      (checkCandidatesEqual c1 c2 = true ↔
        ∀ pq ∈ c1.preds.zip c2.preds,
          pq.1.instructions = pq.2.instructions ∧
          pq.1.lastField.name = pq.2.lastField.name)) := by
  have hmeta : ∀ c1 c2 : CandRecord,
      (∀ pq ∈ c1.preds.zip c2.preds, pq.1.lastField.meta = pq.2.lastField.meta) →
      (checkCandidatesEqual c1 c2 = true ↔
        ∀ pq ∈ c1.preds.zip c2.preds,
          pq.1.instructions = pq.2.instructions ∧
          pq.1.lastField.name = pq.2.lastField.name) := by
    intro c1 c2 hm
    simp only [checkCandidatesEqual, List.all_eq_true, predPairEq,
      Bool.and_eq_true, decide_eq_true_eq]
    constructor
    · intro hall pq hpq
      obtain ⟨hi, hf⟩ := hall pq hpq
      exact ⟨hi, congrArg FieldSlot.name hf⟩
    · intro hall pq hpq
      obtain ⟨hi, hn⟩ := hall pq hpq
      refine ⟨hi, ?_⟩
      have hmq := hm pq hpq
      cases hfq1 : pq.1.lastField with
      | mk n1 m1 =>
        cases hfq2 : pq.2.lastField with
        | mk n2 m2 =>
          rw [hfq1, hfq2] at hn hmq
          simp at hn hmq
          simp [hn, hmq]
  cases cands with
  | nil =>
    refine ⟨by simp [dropDuplicates, dropDupGo], by simp [dropDuplicates, dropDupGo],
      by simp [dropDuplicates, dropDupGo], by simp, by simp [dropDuplicates, dropDupGo],
      hmeta⟩
  | cons c cs =>
    obtain ⟨hrel, htail⟩ := List.pairwise_cons.mp hs
    have hlb : ∀ b ∈ [c], b.score = c.score := by simp
    rw [dropDuplicates_cons]
    have hsub : List.Sublist (c :: dropDupGo [c] c.score cs) (c :: cs) :=
      (dropDupGo_sublist cs c.score [c]).cons₂ c
    refine ⟨hsub, hs.sublist hsub, ?_, ?_, rfl, hmeta⟩
    · refine List.pairwise_cons.mpr ⟨?_, dropDupGo_pairwise cs c.score [c] hlb htail hrel⟩
      intro y hy hcy
      have := dropDupGo_batch cs c.score [c] hlb htail hrel y hy hcy.symm c (by simp)
      rw [checkCandidatesEqual_symm]
      exact this
    · intro c0 hc0 hnot
      rcases List.mem_cons.mp hc0 with hc0 | hc0
      · subst hc0
        exact absurd (List.mem_cons_self _ _) hnot
      · obtain ⟨c', hc', hsc', heq'⟩ :=
          dropDupGo_cover cs c.score [c] hlb htail hrel c0 hc0
        have hc'mem : c' ∈ c :: dropDupGo [c] c.score cs := by
          rcases hc' with hc' | hc'
          · simp at hc'; subst hc'; simp
          · exact List.mem_cons_of_mem c hc'
        refine ⟨c', hc'mem, ?_, hsc', heq'⟩
        intro hcc
        subst hcc
        exact hnot hc'mem

/-- Witness for claim C7: three candidates sorted by score descending, the
first two identical in score and in every predictor position; the head of
the deduplicated list is the head of the input. -/
theorem C7_witness :
    List.Pairwise (fun a b => b.score ≤ a.score)
      ([⟨5, [⟨"i", ⟨"p", "m"⟩⟩]⟩, ⟨5, [⟨"i", ⟨"p", "m"⟩⟩]⟩,
        ⟨3, [⟨"j", ⟨"q", "m"⟩⟩]⟩] : List CandRecord) ∧
    (dropDuplicates
        [⟨5, [⟨"i", ⟨"p", "m"⟩⟩]⟩, ⟨5, [⟨"i", ⟨"p", "m"⟩⟩]⟩,
          ⟨3, [⟨"j", ⟨"q", "m"⟩⟩]⟩]).head? =
      ([⟨5, [⟨"i", ⟨"p", "m"⟩⟩]⟩, ⟨5, [⟨"i", ⟨"p", "m"⟩⟩]⟩,
        ⟨3, [⟨"j", ⟨"q", "m"⟩⟩]⟩] : List CandRecord).head? :=
  ⟨by decide,
    (C7_dedup
      [⟨5, [⟨"i", ⟨"p", "m"⟩⟩]⟩, ⟨5, [⟨"i", ⟨"p", "m"⟩⟩]⟩,
        ⟨3, [⟨"j", ⟨"q", "m"⟩⟩]⟩] (by decide)).2.2.2.2.1⟩
